import Mathlib

/-!
# Verification of the `direct` HTTP router (direct.go)

A shallow embedding of the router found in `direct.go`.  Go strings are
modelled as Lean `String`s and the byte-level operations of the Go
`strings` package are modelled on the character lists of those strings
(the two agree on the ASCII inputs the router deals in).  The Go
`context.Context` chain used to carry path parameters is modelled as an
association list (`Ctx`) where `context.WithValue` prepends and
`ctx.Value` returns the most recently added binding, exactly as the Go
context chain does.  `http.Handler` values are opaque: the embedding is
polymorphic in a handler type `H`, and `ServeHTTP` is modelled as a
function returning the unique handler that would be invoked together
with the request context it would receive.
-/

namespace Direct

/-- The parameter-carrying request context: `context.WithValue` prepends a
`(key, value)` pair; lookup walks from the most recent pair, as the Go
context parent chain does.  Keys are the router's own `directContextKey`
strings, so they collide only with each other. -/
abbrev Ctx := List (String × String)

/-- Model of `ctx.Value(directContextKey(k))`: first (most recent) binding
of the key wins, `none` when the key is absent. -/
def ctxValue (k : String) : Ctx → Option String
  | [] => none
  | (k', v) :: rest => if k' == k then some v else ctxValue k rest

/-- `Param` (direct.go): returns the captured value, or `""` when the
context holds no string for that key. -/
def Param (ctx : Ctx) (p : String) : String :=
  match ctxValue p ctx with
  | none => ""
  | some v => v

/-- `strings.Trim(s, string(c))`: drop every leading and every trailing
occurrence of `c`. -/
def trimChar (c : Char) (s : List Char) : List Char :=
  ((s.dropWhile (· == c)).reverse.dropWhile (· == c)).reverse

/-- `strings.Split(s, string(sep))`: split on every occurrence of `sep`;
the empty string yields `[[]]`, as in Go. -/
def splitOnChar (sep : Char) : List Char → List (List Char)
  | [] => [[]]
  | c :: cs =>
    let rest := splitOnChar sep cs
    if c == sep then [] :: rest
    else
      match rest with
      | [] => [[c]]
      | s :: ss => (c :: s) :: ss

/-- `pathSegments` (direct.go): `strings.Split(strings.Trim(p, "/"), "/")`. -/
def pathSegments (p : String) : List String :=
  (splitOnChar '/' (trimChar '/' p.toList)).map List.asString

/-- `strings.HasPrefix(s, pre)`. -/
def hasPrefixStr (pre s : String) : Bool :=
  pre.toList.isPrefixOf s.toList

/-- `strings.HasSuffix(s, suff)`. -/
def hasSuffixStr (suff s : String) : Bool :=
  suff.toList.isSuffixOf s.toList

/-- `strings.HasPrefix(seg, ":")`: the segment is a parameter token. -/
def isParamSeg (s : String) : Bool :=
  hasPrefixStr ":" s

/-- `strings.TrimPrefix(seg, ":")`: the parameter name.  In `route.match`
this is applied only after `HasPrefix(seg, ":")` succeeded, so it drops
the leading colon. -/
def paramName (s : String) : String :=
  if isParamSeg s then (s.toList.drop 1).asString else s

/-- `strings.HasSuffix(seg, "...")`: the segment is a prefix-terminal
literal. -/
def dotsSuffix (s : String) : Bool :=
  hasSuffixStr "..." s

/-- `seg[:len(seg)-3]`: the prefix-terminal literal with the `...` marker
removed (byte slicing in Go; identical to dropping three characters on
the ASCII segments involved, as `"..."` is three bytes). -/
def stripDots (s : String) : String :=
  (s.toList.take (s.toList.length - 3)).asString

/-- `strings.ToLower` (ASCII case folding, as exercised by HTTP method
strings). -/
def lowerStr (s : String) : String :=
  (s.toList.map Char.toLower).asString

/-- The compiled `route` (direct.go), polymorphic in the handler type.
The Go field `prefix` is called `pref` here (`prefix` is reserved in
Lean). -/
structure Route (H : Type) where
  method : String
  segs : List String
  handler : H
  pref : Bool

/-- `newRoute` (direct.go). -/
def newRoute (method pattern : String) (handler : H) : Route H :=
  { method := lowerStr method
    segs := pathSegments pattern
    handler := handler
    pref := hasSuffixStr "/" pattern || hasSuffixStr "..." pattern }

/-- The segment walk of `route.match` (direct.go, the `for i, seg` loop).
The first clause is the fall-through `return ctx, true` after the loop;
the second is the `i > len(segs)-1` bounds check (pattern longer than the
remaining path); the last clause replays the body: parameter capture via
`context.WithValue`, the prefix-terminal short-circuit `return ctx, true`,
the verbatim equality check, failure `return nil, false` otherwise. -/
def matchSegs : Ctx → List String → List String → Option Ctx
  | ctx, [], _ => some ctx
  | _, _ :: _, [] => none
  | ctx, seg :: rsegs, pseg :: psegs =>
    if isParamSeg seg then
      matchSegs ((paramName seg, pseg) :: ctx) rsegs psegs
    else if dotsSuffix seg && hasPrefixStr (stripDots seg) pseg then
      some ctx
    else if seg == pseg then
      matchSegs ctx rsegs psegs
    else
      none

/-- `route.match` (direct.go): the length guard
`len(segs) > len(r.segs) && !r.prefix`, then the segment walk. -/
def routeMatch (r : Route H) (ctx : Ctx) (path : String) : Option Ctx :=
  let segs := pathSegments path
  if segs.length > r.segs.length && !r.pref then none
  else matchSegs ctx r.segs segs

/-- `adapt` (direct.go): wrap middleware around a handler, iterating the
list from the last element to the first, so the first-listed middleware
ends up outermost. -/
def adapt (h : H) (mw : List (H → H)) : H :=
  mw.foldr (fun m acc => m acc) h

/-- The `Router` (direct.go): ordered routes, router-wide middleware, and
the `NotFound` fallback handler. -/
structure Router (H : Type) where
  routes : List (Route H)
  mw : List (H → H)
  notFound : H

/-- `Router.Handle` (direct.go): adapt handler-specific middleware around
the handler, then the router-wide middleware around that, compile the
route and append it. -/
def Router.handle (r : Router H) (method pattern : String) (handler : H)
    (mw : List (H → H)) : Router H :=
  let h1 := adapt handler mw
  let h2 := adapt h1 r.mw
  { r with routes := r.routes ++ [newRoute method pattern h2] }

/-- The skip test of the dispatch loop (direct.go, `ServeHTTP`):
`route.method != method && route.method != "*"`. -/
def methodSkip (rt : Route H) (m : String) : Bool :=
  rt.method != m && rt.method != "*"

/-- The scan of `ServeHTTP` (direct.go): first route whose method is not
skipped and whose match succeeds wins; otherwise the fallback handler
with the untouched request context.  Each match attempt starts from the
original request context `ctx` (`req.Context()`). -/
def serveLoop (nf : H) (ctx : Ctx) (m path : String) : List (Route H) → H × Ctx
  | [] => (nf, ctx)
  | rt :: rest =>
    if methodSkip rt m then serveLoop nf ctx m path rest
    else
      match routeMatch rt ctx path with
      | some c => (rt.handler, c)
      | none => serveLoop nf ctx m path rest

/-- `Router.ServeHTTP` (direct.go): lower-case the request method, scan
the routes; the result is the unique handler invoked for the request and
the context it observes. -/
def serveHTTP (r : Router H) (ctx : Ctx) (method path : String) : H × Ctx :=
  serveLoop r.notFound ctx (lowerStr method) path r.routes

/-- Trace-semantics handlers used to observe middleware execution order:
a handler maps the trace of events so far to the extended trace. -/
abbrev TraceH := List String → List String

/-- The base handler for the trace semantics: records one `H` event. -/
def baseH : TraceH := fun t => t ++ ["H"]

/-- A middleware (in the sense of direct.go's `Middleware`) that records
`pre:name` before running the wrapped handler and `post:name` after. -/
def traceMW (name : String) : TraceH → TraceH :=
  fun hd t => hd (t ++ ["pre:" ++ name]) ++ ["post:" ++ name]

/-! ## Helper lemmas -/

theorem serveLoop_append_fail (bad rest : List (Route H)) (nf : H) (ctx : Ctx)
    (m path : String)
    (h : ∀ rt ∈ bad, methodSkip rt m = true ∨ routeMatch rt ctx path = none) :
    serveLoop nf ctx m path (bad ++ rest) = serveLoop nf ctx m path rest := by
  induction bad with
  | nil => rfl
  | cons rt bad ih =>
    have hrt := h rt (List.mem_cons_self rt bad)
    have hres := ih fun r hr => h r (List.mem_cons_of_mem _ hr)
    rcases hrt with hskip | hmatch
    · simp [serveLoop, hskip, hres]
    · cases hs : methodSkip rt m
      · simp [serveLoop, hs, hmatch, hres]
      · simp [serveLoop, hs, hres]

theorem take_isPrefixOf (l : List Char) (n : Nat) : (l.take n).isPrefixOf l = true := by
  rw [ List.isPrefixOf_iff_prefix]
  exact List.take_prefix n l

theorem stripDots_hasPrefix_self (s : String) :
    hasPrefixStr (stripDots s) s = true := by
  unfold hasPrefixStr stripDots
  rw [List.toList_asString]
  exact take_isPrefixOf _ _

theorem trimChar_append_sep (c : Char) (l : List Char) :
    trimChar c (l ++ [c]) = trimChar c l := by
  unfold trimChar
  rw [List.dropWhile_append]
  by_cases h : (l.dropWhile (· == c)).isEmpty
  · rw [if_pos h]
    have h3 : l.dropWhile (· == c) = [] := by
      cases h4 : l.dropWhile (· == c)
      · rfl
      · rw [h4] at h; cases h
    rw [h3]
    simp
  · rw [if_neg h]
    rw [List.reverse_append]
    simp [List.dropWhile_cons]

theorem pathSegments_append_slash (p : String) :
    pathSegments (p ++ "/") = pathSegments p := by
  unfold pathSegments
  have h : (p ++ "/").toList = p.toList ++ ['/'] := rfl
  rw [h, trimChar_append_sep]

theorem hasSuffixStr_append_slash (p : String) :
    hasSuffixStr "/" (p ++ "/") = true := by
  unfold hasSuffixStr
  have h : (p ++ "/").toList = p.toList ++ ['/'] := rfl
  rw [h]
  simp [List.isSuffixOf, List.reverse_append, List.isPrefixOf]

theorem matchSegs_self (segs : List String) (ctx : Ctx) :
    ∃ c, matchSegs ctx segs segs = some c := by
  induction segs generalizing ctx with
  | nil => exact ⟨ctx, rfl⟩
  | cons s rest ih =>
    cases hp : isParamSeg s
    · cases hd : dotsSuffix s
      · have ⟨c, hc⟩ := ih ctx
        exact ⟨c, by simp [matchSegs, hp, hd, hc]⟩
      · exact ⟨ctx, by simp [matchSegs, hp, hd, stripDots_hasPrefix_self s]⟩
    · have ⟨c, hc⟩ := ih ((paramName s, s) :: ctx)
      exact ⟨c, by simp [matchSegs, hp, hc]⟩

theorem matchSegs_extend (rsegs : List String) :
    ∀ (psegs extra : List String) (ctx c : Ctx),
      matchSegs ctx rsegs psegs = some c →
      matchSegs ctx rsegs (psegs ++ extra) = some c := by
  induction rsegs with
  | nil =>
    intro psegs extra ctx c h
    simp [matchSegs] at h
    simp [matchSegs, h]
  | cons s rest ih =>
    intro psegs extra ctx c h
    cases psegs with
    | nil => simp [matchSegs] at h
    | cons p ps =>
      rw [List.cons_append]
      cases hp : isParamSeg s
      · cases hdp : dotsSuffix s && hasPrefixStr (stripDots s) p
        · cases hsp : s == p
          · simp [matchSegs, hp, hdp, hsp] at h
          · simp [matchSegs, hp, hdp, hsp] at h ⊢
            exact ih ps extra ctx c h
        · simp [matchSegs, hp, hdp] at h ⊢
          exact h
      · simp [matchSegs, hp] at h ⊢
        exact ih ps extra _ c h

/-! ## Claim theorems -/

/-- C1: dispatch invokes exactly one handler.  `serveHTTP` returns the one
handler invoked for the request: scanning in registration order, a route
is skipped when its method is neither `*` nor the case-normalized request
method; the first route that passes the method test and whose pattern
matches is dispatched with its match context; when every route is skipped
or fails to match, the fallback `NotFound` handler is the one invoked,
with the untouched request context.  The first conjunct also settles
precedence: when two routes match, the earlier-registered one (the one
with only skipped/failing routes before it) is dispatched. -/
theorem dispatch_first_match (r : Router H) (ctx : Ctx) (method path : String)
    (pre post : List (Route H)) (rt : Route H) (c : Ctx) :
    (r.routes = pre ++ rt :: post →
      (∀ r' ∈ pre, methodSkip r' (lowerStr method) = true
          ∨ routeMatch r' ctx path = none) →
      methodSkip rt (lowerStr method) = false →
      routeMatch rt ctx path = some c →
      serveHTTP r ctx method path = (rt.handler, c))
    ∧ ((∀ r' ∈ r.routes, methodSkip r' (lowerStr method) = true
          ∨ routeMatch r' ctx path = none) →
      serveHTTP r ctx method path = (r.notFound, ctx)) := by
  constructor
  · intro hroutes hpre hskip hmatch
    unfold serveHTTP
    rw [hroutes, serveLoop_append_fail _ _ _ _ _ _ hpre]
    simp [serveLoop, hskip, hmatch]
  · intro hall
    unfold serveHTTP
    have h := serveLoop_append_fail r.routes [] r.notFound ctx (lowerStr method) path hall
    simpa [serveLoop] using h

/-- C1 witness: three routes; the first is skipped by method, the second
and third both match `GET /b`, and the second (registered first among the
matching ones) is dispatched. -/
theorem dispatch_first_match_witness :
    serveHTTP
      (Router.mk
        [newRoute "POST" "/a" (1 : Nat), newRoute "GET" "/:x" 2, newRoute "GET" "/b" 3]
        [] 0)
      [] "GET" "/b" = (2, [("x", "b")]) :=
  (dispatch_first_match
    (Router.mk
      [newRoute "POST" "/a" (1 : Nat), newRoute "GET" "/:x" 2, newRoute "GET" "/b" 3]
      [] 0)
    [] "GET" "/b" [newRoute "POST" "/a" (1 : Nat)] [newRoute "GET" "/b" 3]
    (newRoute "GET" "/:x" 2) [("x", "b")]).1 rfl (by decide) (by decide) (by decide)

/-- C10: matching is capture-atomic per route.  A failing route returns
`none` and contributes no captures; the dispatch loop hands every route
the original request context `ctx`, so prepending any number of failing
routes changes nothing (first conjunct), the handler of the first
matching route observes exactly the captures of its own match started
from `ctx` (second conjunct), and when every route fails the fallback
observes the original `ctx` (third conjunct). -/
theorem capture_atomic (bad rest : List (Route H)) (rt : Route H)
    (nf : H) (ctx c : Ctx) (m path : String) :
    ((∀ r' ∈ bad, methodSkip r' m = true ∨ routeMatch r' ctx path = none) →
      serveLoop nf ctx m path (bad ++ rest) = serveLoop nf ctx m path rest)
    ∧ ((∀ r' ∈ bad, methodSkip r' m = true ∨ routeMatch r' ctx path = none) →
      methodSkip rt m = false → routeMatch rt ctx path = some c →
      serveLoop nf ctx m path (bad ++ rt :: rest) = (rt.handler, c))
    ∧ ((∀ r' ∈ bad, methodSkip r' m = true ∨ routeMatch r' ctx path = none) →
      serveLoop nf ctx m path bad = (nf, ctx)) := by
  refine ⟨fun h => serveLoop_append_fail bad rest nf ctx m path h, ?_, ?_⟩
  · intro h hskip hmatch
    rw [serveLoop_append_fail bad (rt :: rest) nf ctx m path h]
    simp [serveLoop, hskip, hmatch]
  · intro h
    have h2 := serveLoop_append_fail bad [] nf ctx m path h
    simpa [serveLoop] using h2

/-- C10 witness: a route that fails mid-walk (its first segment captures,
its second fails) contributes nothing: the later route's handler sees only
its own capture, started from the original context. -/
theorem capture_atomic_witness :
    serveLoop (0 : Nat) [] "get" "/x/y"
      ([newRoute "GET" "/:a/zzz" (1 : Nat)] ++ [newRoute "GET" "/:b/y" 2])
      = (2, [("b", "x")]) :=
  (capture_atomic [newRoute "GET" "/:a/zzz" (1 : Nat)] []
    (newRoute "GET" "/:b/y" 2) (0 : Nat) [] [("b", "x")] "get" "/x/y").2.1
    (by decide) (by decide) (by decide)

/-- C5: a non-parameter pattern segment ending in `...` whose stripped
prefix test succeeds makes the whole match succeed immediately: the
remaining pattern segments (`rest`) are never checked and the remaining
request segments (`prest`) are accepted unconditionally — both are
universally quantified and the result is `some ctx` regardless.  The
closed conjuncts check the spec's scenario: `/prefixdots...` matches
`/prefixdots`, `/prefixdots/` and `/prefixdots/anything/else`. -/
theorem dots_short_circuit :
    (∀ (ctx : Ctx) (seg pseg : String) (rest prest : List String),
      isParamSeg seg = false → dotsSuffix seg = true →
      hasPrefixStr (stripDots seg) pseg = true →
      matchSegs ctx (seg :: rest) (pseg :: prest) = some ctx)
    ∧ routeMatch (newRoute "GET" "/prefixdots..." (0 : Nat)) [] "/prefixdots" = some []
    ∧ routeMatch (newRoute "GET" "/prefixdots..." (0 : Nat)) [] "/prefixdots/" = some []
    ∧ routeMatch (newRoute "GET" "/prefixdots..." (0 : Nat)) [] "/prefixdots/anything/else"
        = some [] := by
  refine ⟨?_, by decide, by decide, by decide⟩
  intro ctx seg pseg rest prest hp hd hpre
  simp [matchSegs, hp, hd, hpre]

/-- C5 witness: the short-circuit at a concrete input, with non-trivial
remaining pattern and request segments. -/
theorem dots_short_circuit_witness :
    matchSegs [("k", "v")] ["images...", "zzz"] ["imagesX", "a", "b"] = some [("k", "v")] :=
  dots_short_circuit.1 [("k", "v")] "images..." "imagesX" ["zzz"] ["a", "b"]
    (by decide) (by decide) (by decide)

/-- C6: when the prefix test of a `...`-suffixed non-parameter segment
fails, the matcher falls through to the verbatim equality check, and that
equality necessarily also fails (a request segment equal to the full
literal would start with the stripped prefix), so the route match fails.
The closed conjunct checks the spec's diverging example: `/foo...` does
not match `/fo`. -/
theorem dots_fall_through :
    (∀ (ctx : Ctx) (seg pseg : String) (rest prest : List String),
      isParamSeg seg = false → dotsSuffix seg = true →
      hasPrefixStr (stripDots seg) pseg = false →
      (seg == pseg) = false ∧ matchSegs ctx (seg :: rest) (pseg :: prest) = none)
    ∧ routeMatch (newRoute "GET" "/foo..." (0 : Nat)) [] "/fo" = none := by
  refine ⟨?_, by decide⟩
  intro ctx seg pseg rest prest hp hd hpre
  have hne : (seg == pseg) = false := by
    cases hb : seg == pseg
    · rfl
    · exfalso
      have heq : seg = pseg := eq_of_beq hb
      rw [← heq, stripDots_hasPrefix_self seg] at hpre
      cases hpre
  exact ⟨hne, by simp [matchSegs, hp, hd, hpre, hne]⟩

/-- C6 witness: the fall-through at a concrete input. -/
theorem dots_fall_through_witness :
    ((("foo..." : String) == "fo") = false)
      ∧ matchSegs [] ["foo...", "x"] ["fo", "y"] = none :=
  dots_fall_through.1 [] "foo..." "fo" ["x"] ["y"] (by decide) (by decide) (by decide)

theorem routeMatch_of_pref (r : Route H) (ctx c : Ctx) (path : String)
    (hpref : r.pref = true)
    (hm : matchSegs ctx r.segs (pathSegments path) = some c) :
    routeMatch r ctx path = some c := by
  unfold routeMatch
  rw [hpref]
  simp [hm]

/-- C2: when the request path has strictly more segments than the route's
pattern and the route is not a prefix route, the match fails (first
conjunct); a pattern ending in `/` yields a prefix route, which matches
the pattern path itself, the pattern path with a trailing slash, and any
path extending the pattern's segments with extra trailing segments
(second conjunct).  Both pattern and path are split by trimming `/` and
splitting on `/` (`pathSegments`). -/
theorem length_guard_and_slash_routes (m pattern path : String) (h : H) (ctx : Ctx) :
    ((pathSegments path).length > (newRoute m pattern h).segs.length →
      (newRoute m pattern h).pref = false →
      routeMatch (newRoute m pattern h) ctx path = none)
    ∧ (hasSuffixStr "/" pattern = true →
      (newRoute m pattern h).pref = true
      ∧ (∃ c, routeMatch (newRoute m pattern h) ctx pattern = some c)
      ∧ (∃ c, routeMatch (newRoute m pattern h) ctx (pattern ++ "/") = some c)
      ∧ (∀ extra, pathSegments path = pathSegments pattern ++ extra →
          ∃ c, routeMatch (newRoute m pattern h) ctx path = some c)) := by
  constructor
  · intro hgt hpref
    unfold routeMatch
    rw [hpref]
    simp only [decide_eq_true hgt]
    rfl
  · intro hsuff
    have hpref : (newRoute m pattern h).pref = true := by
      simp [newRoute, hsuff]
    have hsegs : (newRoute m pattern h).segs = pathSegments pattern := rfl
    refine ⟨hpref, ?_, ?_, ?_⟩
    · have ⟨c, hc⟩ := matchSegs_self (pathSegments pattern) ctx
      exact ⟨c, routeMatch_of_pref _ ctx c pattern hpref (by rw [hsegs]; exact hc)⟩
    · have ⟨c, hc⟩ := matchSegs_self (pathSegments pattern) ctx
      refine ⟨c, routeMatch_of_pref _ ctx c (pattern ++ "/") hpref ?_⟩
      rw [hsegs, pathSegments_append_slash]
      exact hc
    · intro extra hext
      have ⟨c, hc⟩ := matchSegs_self (pathSegments pattern) ctx
      refine ⟨c, routeMatch_of_pref _ ctx c path hpref ?_⟩
      rw [hsegs, hext]
      exact matchSegs_extend _ _ extra ctx c hc

/-- C2 witness: `/a` (no trailing slash) fails on the longer `/a/b`;
`/prefix/` is a prefix route and matches the extending `/prefix/a/b`. -/
theorem length_guard_and_slash_routes_witness :
    routeMatch (newRoute "GET" "/a" (0 : Nat)) [] "/a/b" = none
    ∧ ∃ c, routeMatch (newRoute "GET" "/prefix/" (0 : Nat)) [] "/prefix/a/b" = some c :=
  ⟨(length_guard_and_slash_routes "GET" "/a" "/a/b" (0 : Nat) []).1
      (by decide) (by decide),
   ((length_guard_and_slash_routes "GET" "/prefix/" "/prefix/a/b" (0 : Nat) []).2
      (by decide)).2.2.2 ["a", "b"] (by decide)⟩

theorem toLower_eq_star (c : Char) (h : c.toLower = '*') : c = '*' := by
  simp only [Char.toLower] at h
  split at h
  · exfalso
    rename_i hc
    have hvalid : (c.toNat + 32).isValidChar := by
      refine Or.inl ?_
      omega
    have hofn : Char.ofNat (c.toNat + 32) = Char.ofNatAux (c.toNat + 32) hvalid :=
      dif_pos hvalid
    rw [hofn] at h
    have hval : (Char.ofNatAux (c.toNat + 32) hvalid).toNat = c.toNat + 32 := rfl
    rw [h] at hval
    have h42 : ('*' : Char).toNat = 42 := rfl
    omega
  · exact h

theorem lowerStr_eq_star (s : String) (h : lowerStr s = "*") : s = "*" := by
  have hl : s.toList.map Char.toLower = ("*" : String).toList := by
    have h2 := congrArg String.toList h
    rwa [lowerStr, List.toList_asString] at h2
  cases hml : s.toList with
  | nil => rw [hml] at hl; cases hl
  | cons c cs =>
    rw [hml] at hl
    have hstar : ("*" : String).toList = ['*'] := rfl
    rw [hstar, List.map_cons] at hl
    have hc : c.toLower = '*' := (List.cons.injEq _ _ _ _ ▸ hl).1
    have hcs : cs.map Char.toLower = [] := (List.cons.injEq _ _ _ _ ▸ hl).2
    have hcs' : cs = [] := by
      cases cs
      · rfl
      · cases hcs
    rw [← String.asString_toList s, hml, hcs', toLower_eq_star c hc]
    rfl

/-- C7: the dispatch loop's skip test (`route.method != method &&
route.method != "*"`, with both sides lower-cased).  A route registered
with method `*` is never skipped, whatever the request method; a route
registered with any other method passes the test exactly when the two
method strings agree after case normalization. -/
theorem method_wildcard_and_case (m reqM pattern : String) (h : H) :
    (m = "*" → methodSkip (newRoute m pattern h) (lowerStr reqM) = false)
    ∧ (m ≠ "*" →
      (methodSkip (newRoute m pattern h) (lowerStr reqM) = false
        ↔ lowerStr m = lowerStr reqM)) := by
  constructor
  · intro hm
    subst hm
    have hstar : lowerStr "*" = "*" := rfl
    simp [methodSkip, newRoute, hstar]
  · intro hm
    constructor
    · intro hskip
      simp only [methodSkip, newRoute, Bool.and_eq_false_iff, bne_eq_false_iff_eq] at hskip
      rcases hskip with heq | hstar
      · exact heq
      · exact absurd (lowerStr_eq_star m hstar) hm
    · intro heq
      simp [methodSkip, newRoute, heq]

/-- C7 witness: registering `get` matches a `GET` request and vice versa;
a `*` route matches an arbitrary method string. -/
theorem method_wildcard_and_case_witness :
    methodSkip (newRoute "get" "/x" (0 : Nat)) (lowerStr "GET") = false
    ∧ methodSkip (newRoute "GET" "/x" (0 : Nat)) (lowerStr "get") = false
    ∧ methodSkip (newRoute "*" "/x" (0 : Nat)) (lowerStr "BREW") = false :=
  ⟨((method_wildcard_and_case "get" "GET" "/x" (0 : Nat)).2 (by decide)).mpr (by decide),
   ((method_wildcard_and_case "GET" "get" "/x" (0 : Nat)).2 (by decide)).mpr (by decide),
   (method_wildcard_and_case "*" "BREW" "/x" (0 : Nat)).1 rfl⟩

/-- C8: `Param` is total and never fails: it returns the capture when the
context chain holds a binding for the name, and the empty string when the
name is absent. -/
theorem param_lookup_total (ctx : Ctx) (name : String) :
    (∀ v, ctxValue name ctx = some v → Param ctx name = v)
    ∧ (ctxValue name ctx = none → Param ctx name = "") := by
  constructor
  · intro v hv
    simp [Param, hv]
  · intro hv
    simp [Param, hv]

/-- C8 witness: a present name returns its capture, an unknown name on the
same context — and any name on an empty context — returns `""`. -/
theorem param_lookup_total_witness :
    Param [("id", "123")] "id" = "123"
    ∧ Param [("id", "123")] "other" = ""
    ∧ Param [] "id" = "" :=
  ⟨(param_lookup_total [("id", "123")] "id").1 "123" (by decide),
   (param_lookup_total [("id", "123")] "other").2 (by decide),
   (param_lookup_total [] "id").2 (by decide)⟩

theorem adapt_adapt (h : H) (l1 l2 : List (H → H)) :
    adapt (adapt h l1) l2 = adapt h (l2 ++ l1) := by
  unfold adapt
  rw [List.foldr_append]

theorem adapt_trace (names : List String) :
    ∀ t, adapt baseH (names.map traceMW) t
      = t ++ names.map (fun n => "pre:" ++ n) ++ ["H"]
          ++ (names.map (fun n => "post:" ++ n)).reverse := by
  induction names with
  | nil => intro t; simp [adapt, baseH]
  | cons n ns ih =>
    intro t
    have hstep : adapt baseH ((n :: ns).map traceMW)
        = traceMW n (adapt baseH (ns.map traceMW)) := rfl
    rw [hstep]
    show adapt baseH (ns.map traceMW) (t ++ ["pre:" ++ n]) ++ ["post:" ++ n] = _
    rw [ih]
    simp [List.append_assoc]

/-- C4: middleware composition.  Generic conjunct: `Handle` first adapts
the handler-specific list, then the router-wide list, and the stored
handler is `adapt H (routerMW ++ handlerMW)`, i.e.
`r1 (r2 (… rk (h1 (… hj H))))` with the first-listed middleware outermost
within each list and the router-wide list outside the handler-specific
one.  Trace conjunct: invoking the composed handler runs the router-wide
pre-logic in list order, then the handler-specific pre-logic in list
order, then the base handler, then the post-logic in exactly the reverse
order. -/
theorem middleware_onion (routes0 : List (Route TraceH)) (nf : TraceH)
    (rnames hnames : List String) (method pattern : String) :
    (∀ (h0 : TraceH) (l1 l2 : List (TraceH → TraceH)),
      adapt (adapt h0 l1) l2 = adapt h0 (l2 ++ l1))
    ∧ ∃ rt,
      (Router.handle ⟨routes0, rnames.map traceMW, nf⟩ method pattern baseH
          (hnames.map traceMW)).routes = routes0 ++ [rt]
      ∧ rt.handler = adapt baseH ((rnames ++ hnames).map traceMW)
      ∧ rt.handler []
          = rnames.map (fun n => "pre:" ++ n) ++ hnames.map (fun n => "pre:" ++ n)
            ++ ["H"] ++ (hnames.map (fun n => "post:" ++ n)).reverse
            ++ (rnames.map (fun n => "post:" ++ n)).reverse := by
  refine ⟨fun h0 l1 l2 => adapt_adapt h0 l1 l2, ?_⟩
  refine ⟨newRoute method pattern
    (adapt (adapt baseH (hnames.map traceMW)) (rnames.map traceMW)), rfl, ?_, ?_⟩
  · show adapt (adapt baseH (hnames.map traceMW)) (rnames.map traceMW) = _
    rw [adapt_adapt, ← List.map_append]
  · show adapt (adapt baseH (hnames.map traceMW)) (rnames.map traceMW) [] = _
    rw [adapt_adapt, ← List.map_append, adapt_trace]
    simp [List.append_assoc]

theorem matchSegs_pre_dots (dseg p : String)
    (hp4 : isParamSeg dseg = false) (hp5 : dotsSuffix dseg = true)
    (hp6 : hasPrefixStr (stripDots dseg) p = true) :
    ∀ (pre : List String), (∀ s ∈ pre, isParamSeg s = false ∧ dotsSuffix s = false) →
      ∀ (post ps : List String) (ctx : Ctx),
        matchSegs ctx (pre ++ dseg :: post) (pre ++ p :: ps) = some ctx := by
  intro pre
  induction pre with
  | nil =>
    intro _ post ps ctx
    simp [matchSegs, hp4, hp5, hp6]
  | cons s rest ih =>
    intro hpre post ps ctx
    have ⟨hsp, hsd⟩ := hpre s (List.mem_cons_self s rest)
    have hrest := fun s' hs' => hpre s' (List.mem_cons_of_mem _ hs')
    simp only [List.cons_append]
    simp [matchSegs, hsp, hsd]
    exact ih hrest post ps ctx

/-- C9 counterexample: the claim fails as stated because the length guard
of `route.match` runs before the segment walk.  `/static.../ignored` is
not a prefix route (the pattern ends in neither `/` nor `...`), so the
three-segment request `/staticA/b/c` — whose first segment starts with
`static` — is rejected by `len(segs) > len(r.segs) && !r.prefix` before
the `...` short-circuit is ever reached. -/
theorem dots_mid_pattern_counterexample :
    routeMatch (newRoute "GET" "/static.../ignored" (0 : Nat)) [] "/staticA/b/c" = none
    ∧ hasPrefixStr "static" "staticA" = true
    ∧ (newRoute "GET" "/static.../ignored" (0 : Nat)).pref = false := by
  decide

/-- C9 (amended): the `...` short-circuit does trigger at any pattern
position, not only the final one, provided the route-level length guard
passes (request not longer than the pattern, or a prefix route): after a
run `pre` of matching literal segments, a `...` segment whose stripped
prefix test succeeds ends the whole match successfully, and the pattern
segments after it are never compared against anything — the result is the
same `some ctx` for every choice of trailing pattern segments (`post`,
`post'`) and request tails (`ps`, `ps'`). -/
theorem dots_mid_pattern (m pattern path : String) (h : H) (ctx : Ctx)
    (pre post post' : List String) (dseg p : String) (ps ps' : List String) :
    (newRoute m pattern h).segs = pre ++ dseg :: post →
    pathSegments path = pre ++ p :: ps →
    (∀ s ∈ pre, isParamSeg s = false ∧ dotsSuffix s = false) →
    isParamSeg dseg = false → dotsSuffix dseg = true →
    hasPrefixStr (stripDots dseg) p = true →
    (ps.length ≤ post.length ∨ (newRoute m pattern h).pref = true) →
    routeMatch (newRoute m pattern h) ctx path = some ctx
    ∧ matchSegs ctx (pre ++ dseg :: post') (pre ++ p :: ps') = some ctx := by
  intro h1 h2 h3 h4 h5 h6 h7
  have hwalk := matchSegs_pre_dots dseg p h4 h5 h6 pre h3
  constructor
  · unfold routeMatch
    rw [h1, h2]
    have hlen : ¬((pre ++ p :: ps).length > (pre ++ dseg :: post).length
        && !(newRoute m pattern h).pref) = true := by
      rcases h7 with hle | hpref
      · simp [List.length_append]
        intro hgt
        omega
      · simp [hpref]
    rw [if_neg hlen]
    exact hwalk post ps ctx
  · exact hwalk post' ps' ctx

/-- C9 witness: `/static.../ignored` matched against the two-segment
`/staticA/b`: the short-circuit fires at position 0 of 2 and the trailing
pattern segment `ignored` is never compared. -/
theorem dots_mid_pattern_witness :
    routeMatch (newRoute "GET" "/static.../ignored" (0 : Nat)) [] "/staticA/b" = some []
    ∧ matchSegs [] ["static...", "whatever"] ["staticA", "x", "y"] = some [] :=
  dots_mid_pattern "GET" "/static.../ignored" "/staticA/b" (0 : Nat) []
    [] ["ignored"] ["whatever"] "static..." "staticA" ["b"] ["x", "y"]
    (by decide) (by decide) (by decide) (by decide) (by decide) (by decide)
    (Or.inl (by decide))

theorem matchSegs_ctxValue_stable (name : String) :
    ∀ (rsegs psegs : List String) (ctx c : Ctx),
      (∀ s ∈ rsegs, isParamSeg s = true → paramName s ≠ name) →
      matchSegs ctx rsegs psegs = some c →
      ctxValue name c = ctxValue name ctx := by
  intro rsegs
  induction rsegs with
  | nil =>
    intro psegs ctx c _ h
    simp [matchSegs] at h
    rw [h]
  | cons s rs ih =>
    intro psegs ctx c hn h
    cases psegs with
    | nil => simp [matchSegs] at h
    | cons p ps =>
      have htail : ∀ s' ∈ rs, isParamSeg s' = true → paramName s' ≠ name :=
        fun s' hs' => hn s' (List.mem_cons_of_mem _ hs')
      cases hp : isParamSeg s
      · cases hdp : dotsSuffix s && hasPrefixStr (stripDots s) p
        · cases hsp : s == p
          · simp [matchSegs, hp, hdp, hsp] at h
          · simp only [matchSegs, hp, hdp, hsp, Bool.false_eq_true, if_false, if_true] at h
            exact ih ps ctx c htail h
        · simp [matchSegs, hp, hdp] at h
          rw [h]
      · simp only [matchSegs, hp, if_true] at h
        have hname : paramName s ≠ name := hn s (List.mem_cons_self s rs) hp
        rw [ih ps ((paramName s, p) :: ctx) c htail h]
        simp [ctxValue, hname]

theorem matchSegs_param_capture (name : String) :
    ∀ (rsegs psegs : List String) (ctx c : Ctx) (i : Nat) (seg : String),
      (∀ s ∈ rsegs, isParamSeg s = false → dotsSuffix s = false) →
      matchSegs ctx rsegs psegs = some c →
      rsegs[i]? = some seg → isParamSeg seg = true → paramName seg = name →
      (∀ j, (hj : j < rsegs.length) → i < j → isParamSeg rsegs[j] = true →
        paramName rsegs[j] ≠ name) →
      ∃ v, psegs[i]? = some v ∧ ctxValue name c = some v := by
  intro rsegs
  induction rsegs with
  | nil =>
    intro psegs ctx c i seg _ _ hget
    simp at hget
  | cons s rs ih =>
    intro psegs ctx c i seg hnd h hget hp hname hlast
    cases psegs with
    | nil => simp [matchSegs] at h
    | cons p ps =>
      have hndtail : ∀ s' ∈ rs, isParamSeg s' = false → dotsSuffix s' = false :=
        fun s' hs' => hnd s' (List.mem_cons_of_mem _ hs')
      cases i with
      | zero =>
        have hseg : s = seg := by simpa using hget
        subst hseg
        have hstep : matchSegs ctx (s :: rs) (p :: ps)
            = matchSegs ((paramName s, p) :: ctx) rs ps := by
          simp [matchSegs, hp]
        rw [hstep] at h
        refine ⟨p, by simp, ?_⟩
        have hnone : ∀ s' ∈ rs, isParamSeg s' = true → paramName s' ≠ name := by
          intro s' hs' hps'
          obtain ⟨j, hj, hjs⟩ := List.getElem_of_mem hs'
          have := hlast (j + 1) (by simpa using Nat.succ_lt_succ hj) (Nat.succ_pos j)
          rw [List.getElem_cons_succ, hjs] at this
          exact this hps'
        rw [matchSegs_ctxValue_stable name rs ps _ c hnone h, hname]
        simp [ctxValue]
      | succ i' =>
        have hget' : rs[i']? = some seg := by simpa using hget
        have hlast' : ∀ j, (hj : j < rs.length) → i' < j → isParamSeg rs[j] = true →
            paramName rs[j] ≠ name := by
          intro j hj hij
          have := hlast (j + 1) (by simpa using Nat.succ_lt_succ hj)
            (Nat.succ_lt_succ hij)
          rwa [List.getElem_cons_succ] at this
        have hgoal : (p :: ps)[i' + 1]? = ps[i']? := by simp
        rw [hgoal]
        cases hps : isParamSeg s
        · have hds : dotsSuffix s = false := hnd s (List.mem_cons_self s rs) hps
          cases hsp : s == p
          · exfalso
            simp [matchSegs, hps, hds, hsp] at h
          · simp only [matchSegs, hps, hds, hsp, Bool.false_and, Bool.false_eq_true,
              if_false, if_true] at h
            exact ih ps ctx c i' seg hndtail h hget' hp hname hlast'
        · simp only [matchSegs, hps, if_true] at h
          exact ih ps ((paramName s, p) :: ctx) c i' seg hndtail h hget' hp hname hlast'

/-- C3 counterexample: the claim fails as stated for a pattern that puts a
`...` prefix-terminal before the parameter.  `/files.../:id` matches
`/files/abc` via the short-circuit (the match succeeds), the positionally
corresponding segment for `:id` is `"abc"`, yet no capture is made and the
`Param` lookup returns `""`, not `"abc"`. -/
theorem param_capture_counterexample :
    routeMatch (newRoute "GET" "/files.../:id" (0 : Nat)) [] "/files/abc" = some []
    ∧ (pathSegments "/files/abc")[1]? = some "abc"
    ∧ Param [] "id" = ""
    ∧ ("" : String) ≠ "abc" := by
  decide

/-- C3 (amended): for every pattern whose non-parameter segments do not
end in `...` (so the walk can never short-circuit past a parameter) and
every request path that matches it, each parameter name — at the last
pattern position carrying that name — maps to the exact string of the
positionally corresponding request path segment, with no re-encoding, and
the `Param` lookup on the match context returns that string.  For
patterns with pairwise-distinct parameter names this is every parameter
position.  The concrete scenario (`GET /path-param/:id` dispatched with
`/path-param/123` giving `Param ctx "id" = "123"`) is the witness. -/
theorem param_capture_exact (r : Route H) (ctx c : Ctx) (path : String)
    (i : Nat) (seg name : String) :
    (∀ s ∈ r.segs, isParamSeg s = false → dotsSuffix s = false) →
    routeMatch r ctx path = some c →
    r.segs[i]? = some seg → isParamSeg seg = true → paramName seg = name →
    (∀ j, (hj : j < r.segs.length) → i < j → isParamSeg r.segs[j] = true →
      paramName r.segs[j] ≠ name) →
    ∃ v, (pathSegments path)[i]? = some v ∧ Param c name = v := by
  intro hnd hm hget hp hname hlast
  unfold routeMatch at hm
  simp only [] at hm
  split at hm
  · cases hm
  · obtain ⟨v, hv, hcv⟩ :=
      matchSegs_param_capture name r.segs (pathSegments path) ctx c i seg
        hnd hm hget hp hname hlast
    exact ⟨v, hv, by simp [Param, hcv]⟩

/-- C3 witness: the spec's scenario.  Registering `GET /path-param/:id`
and dispatching `GET /path-param/123` invokes the route's handler with a
context on which `Param` returns `"123"` for `"id"`; the theorem is
applied to that route at the match context the dispatch produces. -/
theorem param_capture_exact_witness :
    (serveHTTP (Router.mk [newRoute "GET" "/path-param/:id" (7 : Nat)] [] 0)
        [] "GET" "/path-param/123" = (7, [("id", "123")]))
    ∧ ∃ v, (pathSegments "/path-param/123")[1]? = some v
        ∧ Param [("id", "123")] "id" = v :=
  ⟨by decide,
   param_capture_exact (newRoute "GET" "/path-param/:id" (7 : Nat))
     [] [("id", "123")] "/path-param/123" 1 ":id" "id"
     (by decide) (by decide) (by decide) (by decide) (by decide) (by decide)⟩


end Direct
